import Mathlib

/-!
Verification of the partitioned dataset core of this repository
(src/kedro/io/partitioned_dataset.py, classes PartitionedDataSet and
IncrementalDataSet).  Python strings are modelled as lists of
characters, Python dicts and lists as Lean lists, and the external
collaborators (the fsspec filesystem, the underlying per partition
dataset and the checkpoint dataset) as explicit capabilities carried in
a state record.  Each engine operation is a pure function from state to
result, successor state and a list of observable events.
-/

namespace Kedro

/-- Python str, modelled as a list of characters. -/
abbrev Str : Type := List Char

/-- Python str.rstrip with a one character strip set. -/
def rstrip (s : Str) (c : Char) : Str :=
  (s.reverse.dropWhile (· == c)).reverse

/-- Python str.lstrip with a one character strip set. -/
def lstrip (s : Str) (c : Char) : Str :=
  s.dropWhile (· == c)

/-- Python str.endswith. -/
def strEndsWith (s t : Str) : Bool :=
  t.isSuffixOf s

/-- Remainder of the string after the first occurrence of pat, or none
when pat does not occur. -/
def afterFirst (pat : Str) : Str → Option Str
  | [] => if pat.isEmpty then some [] else none
  | c :: cs =>
    if pat.isPrefixOf (c :: cs) then some ((c :: cs).drop pat.length)
    else afterFirst pat cs

/-- Python s.split(sub, 1).pop(): the part after the first occurrence of
sub in s, or s itself when sub does not occur. -/
def splitOncePop (s sub : Str) : Str :=
  (afterFirst sub s).getD s

/-- The module level S3_PROTOCOLS constant. -/
def S3_PROTOCOLS : List Str := ["s3".data, "s3a".data, "s3n".data]

/-- Static configuration of a PartitionedDataSet instance, as set up by
PartitionedDataSet.__init__: the root path, the protocol inferred from
it by fsspec infer_storage_options (an external call, so the inferred
value is carried as a field), the strip_protocol capability of the
fsspec filesystem (external), the filesystem path separator, the
filename suffix filter and the overwrite flag. -/
structure Config where
  path : Str
  protocol : Str
  stripProtocol : Str → Str
  sep : Char
  filenameSuffix : Str
  overwrite : Bool

/-- Scheme replacement on a URL of the form scheme://rest, modelling the
urlparse based rewrite in PartitionedDataSet._normalized_path. -/
def schemeSwap (p : Str) (scheme : Str) : Str :=
  match afterFirst ("://".data) p with
  | some rest => scheme ++ "://".data ++ rest
  | none => p

/-- PartitionedDataSet._normalized_path: rewrite the s3a and s3n schemes
to s3, otherwise return the path unchanged. -/
def normalizedPath (cfg : Config) : Str :=
  if S3_PROTOCOLS.contains cfg.protocol then schemeSwap cfg.path ("s3".data)
  else cfg.path

/-- PartitionedDataSet._join_protocol. -/
def joinProtocol (cfg : Config) (p : Str) : Str :=
  if cfg.protocol.isPrefixOf cfg.path && !(cfg.protocol.isPrefixOf p) then
    cfg.protocol ++ "://".data ++ p
  else p

/-- PartitionedDataSet._partition_to_path: join the rstripped root path
and the lstripped partition id with the separator and append the
filename suffix. -/
def partitionToPath (cfg : Config) (pid : Str) : Str :=
  rstrip cfg.path cfg.sep ++ [cfg.sep] ++ lstrip pid cfg.sep ++ cfg.filenameSuffix

/-- PartitionedDataSet._path_to_partition: take the part after the first
occurrence of the protocol stripped normalized root path, lstrip the
separator, and strip one copy of the filename suffix when it is nonempty
and present. -/
def pathToPartition (cfg : Config) (p : Str) : Str :=
  let dirPath := cfg.stripProtocol (normalizedPath cfg)
  let q := lstrip (splitOncePop p dirPath) cfg.sep
  if cfg.filenameSuffix ≠ [] ∧ strEndsWith q cfg.filenameSuffix = true then
    q.take (q.length - cfg.filenameSuffix.length)
  else q

theorem afterFirst_self_append (pat rest : Str) :
    afterFirst pat (pat ++ rest) = some rest := by
  cases hp : pat ++ rest with
  | nil =>
    obtain ⟨h1, h2⟩ := List.append_eq_nil.mp hp
    subst h1
    subst h2
    simp [afterFirst]
  | cons c cs =>
    have hpre : pat.isPrefixOf (c :: cs) = true := by
      rw [← hp]
      simp [ List.isPrefixOf_iff_prefix]
    simp only [afterFirst, hpre, if_true]
    rw [← hp, List.drop_left]

theorem lstrip_append_of (x y : Str) (c : Char)
    (hx : lstrip x c = x) (hy : lstrip y c = y) :
    lstrip (x ++ y) c = x ++ y := by
  unfold lstrip at *
  rw [List.dropWhile_append]
  cases x with
  | nil => simpa using hy
  | cons a as =>
    rw [hx]
    simp

/-- C4: for a partition id with no leading separator, under a root path
that has no protocol prefix (strip_protocol leaves the normalized root
unchanged), is nonempty and has no trailing separator, and a filename
suffix with no leading separator, converting the id to its fully
qualified storage path and converting that path back yields the original
id. -/
theorem C4_path_roundtrip (cfg : Config) (pid : Str)
    (h0 : cfg.path ≠ [])
    (h1 : cfg.stripProtocol (normalizedPath cfg) = cfg.path)
    (h2 : rstrip cfg.path cfg.sep = cfg.path)
    (h3 : lstrip pid cfg.sep = pid)
    (h4 : lstrip cfg.filenameSuffix cfg.sep = cfg.filenameSuffix) :
    pathToPartition cfg (partitionToPath cfg pid) = pid := by
  have hne : cfg.path ≠ [] := h0
  unfold pathToPartition partitionToPath
  rw [h1, h2, h3]
  dsimp only
  have hsplit :
      splitOncePop (cfg.path ++ [cfg.sep] ++ pid ++ cfg.filenameSuffix) cfg.path
        = [cfg.sep] ++ (pid ++ cfg.filenameSuffix) := by
    unfold splitOncePop
    have : cfg.path ++ [cfg.sep] ++ pid ++ cfg.filenameSuffix
        = cfg.path ++ ([cfg.sep] ++ (pid ++ cfg.filenameSuffix)) := by
      simp [List.append_assoc]
    rw [this, afterFirst_self_append]
    rfl
  rw [hsplit]
  have hl : lstrip ([cfg.sep] ++ (pid ++ cfg.filenameSuffix)) cfg.sep
      = pid ++ cfg.filenameSuffix := by
    show lstrip (cfg.sep :: (pid ++ cfg.filenameSuffix)) cfg.sep = _
    unfold lstrip
    rw [List.dropWhile_cons]
    simp only [beq_self_eq_true, if_true]
    exact lstrip_append_of pid cfg.filenameSuffix cfg.sep h3 h4
  rw [hl]
  cases hsfx : cfg.filenameSuffix with
  | nil => simp
  | cons c cs =>
    have hends : strEndsWith (pid ++ (c :: cs)) (c :: cs) = true := by
      simp [strEndsWith, List.isSuffixOf]
    rw [if_pos]
    · rw [List.length_append, Nat.add_sub_cancel, List.take_left]
    · exact ⟨by simp, hends⟩

/-- Concrete configuration used by several witnesses: a local root path
with no protocol prefix, separator slash and csv filename suffix. -/
def cfgCsv : Config :=
  { path := "data/root".data
    protocol := "file".data
    stripProtocol := fun s => s
    sep := '/'
    filenameSuffix := ".csv".data
    overwrite := false }

theorem C4_path_roundtrip_witness :
    (cfgCsv.path ≠ [] ∧
      cfgCsv.stripProtocol (normalizedPath cfgCsv) = cfgCsv.path ∧
      rstrip cfgCsv.path cfgCsv.sep = cfgCsv.path ∧
      lstrip ("2023-01-01/part-1".data) cfgCsv.sep = "2023-01-01/part-1".data ∧
      lstrip cfgCsv.filenameSuffix cfgCsv.sep = cfgCsv.filenameSuffix) ∧
    pathToPartition cfgCsv (partitionToPath cfgCsv ("2023-01-01/part-1".data))
      = "2023-01-01/part-1".data :=
  ⟨⟨by decide, by decide, by decide, by decide, by decide⟩,
    C4_path_roundtrip cfgCsv ("2023-01-01/part-1".data)
      (by decide) (by decide) (by decide) (by decide) (by decide)⟩

deriving instance DecidableEq for Except

/-- A value passed to save for one partition: either the data itself or
a zero argument producer, invoked when callable. -/
inductive PartValue (α : Type) where
  | val : α → PartValue α
  | thunk : (Unit → α) → PartValue α

/-- Resolve a save value: invoke the producer when it is callable. -/
def resolve {α : Type} : PartValue α → α
  | PartValue.val a => a
  | PartValue.thunk f => f ()

/-- Observable events of an engine operation: a filesystem find call, a
load of one partition through the underlying dataset, a save of one
partition through the underlying dataset, a save of the checkpoint
value, the invalidation of the filesystem cache and the recursive
removal of the root. -/
inductive Event (α : Type) where
  | find : Event α
  | partLoad : Str → Event α
  | partSave : Str → α → Event α
  | ckptSave : Str → Event α
  | fsInvalidate : Event α
  | fsRm : Event α
  deriving DecidableEq

/-- The filesystem capability and its current contents: the storage
paths that find returns under the normalized root, whether the root
exists, the data read back from a full storage path by the underlying
dataset, and on which storage paths the underlying dataset save raises. -/
structure FS (α : Type) where
  files : List Str
  rootExists : Bool
  read : Str → α
  saveFails : Str → Bool

/-- Effect of writing one partition: the path appears in the listing and
the written data is read back from it. -/
def fsWrite {α : Type} (fs : FS α) (p : Str) (v : α) : FS α :=
  { fs with
    files := if p ∈ fs.files then fs.files else fs.files ++ [p]
    rootExists := true
    read := fun q => if q = p then v else fs.read q }

/-- Mutable state of a PartitionedDataSet instance: the filesystem and
the maxsize one partition listing cache. -/
structure BState (α : Type) where
  fs : FS α
  cache : Option (List Str)

/-- DataSetError outcomes distinguished by the engine. -/
inductive DSErr where
  | noPartitionsFound
  | saveFailed
  deriving DecidableEq

/-- PartitionedDataSet._list_partitions without the cache decorator: the
find results that end with the filename suffix, in find order. -/
def listPartsRawB {α : Type} (cfg : Config) (fs : FS α) : List Str :=
  fs.files.filter (fun p => strEndsWith p cfg.filenameSuffix)

/-- PartitionedDataSet._list_partitions under the cachedmethod decorator
with the maxsize one cache: a hit returns the stored listing without any
filesystem access, a miss runs find and stores the result. -/
def listPartsB {α : Type} (cfg : Config) (s : BState α) :
    List Str × BState α × List (Event α) :=
  match s.cache with
  | some l => (l, s, [])
  | none =>
    (listPartsRawB cfg s.fs, { s with cache := some (listPartsRawB cfg s.fs) },
      [Event.find])

/-- PartitionedDataSet._load: one entry per listed partition, mapping
the partition id to the load thunk of a dataset bound to the protocol
joined partition path (the thunk target is recorded, the thunk is not
invoked); raises DataSetError when the listing is empty. -/
def loadB {α : Type} (cfg : Config) (s : BState α) :
    Except DSErr (List (Str × Str)) × BState α × List (Event α) :=
  let r := listPartsB cfg s
  let m := r.1.map (fun p => (pathToPartition cfg p, joinProtocol cfg p))
  if m.isEmpty then (Except.error DSErr.noPartitionsFound, r.2.1, r.2.2)
  else (Except.ok m, r.2.1, r.2.2)

/-- PartitionedDataSet._exists: true iff the listing is nonempty. -/
def existsB {α : Type} (cfg : Config) (s : BState α) :
    Bool × BState α × List (Event α) :=
  let r := listPartsB cfg s
  (!r.1.isEmpty, r.2.1, r.2.2)

/-- PartitionedDataSet._invalidate_caches: clear the partition cache and
invalidate the filesystem cache for the root. -/
def invalidateCachesB {α : Type} (s : BState α) : BState α × List (Event α) :=
  ({ s with cache := none }, [Event.fsInvalidate])

/-- PartitionedDataSet._release: invalidate the caches. -/
def releaseB {α : Type} (s : BState α) : BState α × List (Event α) :=
  invalidateCachesB s

/-- Order on save entries realized by sorted(data.items()): dict keys
are unique, so sorting the items is sorting by partition id. -/
def keyLe {α : Type} (a b : Str × PartValue α) : Prop :=
  a.1 ≤ b.1

instance {α : Type} : DecidableRel (keyLe (α := α)) :=
  fun a b => inferInstanceAs (Decidable (a.1 ≤ b.1))

instance {α : Type} : IsTotal (Str × PartValue α) keyLe :=
  ⟨fun a b => le_total a.1 b.1⟩

instance {α : Type} : IsTrans (Str × PartValue α) keyLe :=
  ⟨fun _ _ _ h1 h2 => le_trans h1 h2⟩

/-- Python sorted(data.items()). -/
def sortByKey {α : Type} (data : List (Str × PartValue α)) :
    List (Str × PartValue α) :=
  data.insertionSort keyLe

/-- The write loop of PartitionedDataSet._save: for each entry in sorted
order, resolve a callable value, bind a dataset to the protocol joined
partition path and save; a failing underlying save raises immediately,
keeping the writes made so far. -/
def saveLoop {α : Type} (cfg : Config) :
    List (Str × PartValue α) → FS α → Except DSErr Unit × FS α × List (Event α)
  | [], fs => (Except.ok (), fs, [])
  | (pid, pv) :: rest, fs =>
    let p := joinProtocol cfg (partitionToPath cfg pid)
    let v := resolve pv
    if fs.saveFails p then (Except.error DSErr.saveFailed, fs, [])
    else
      let r := saveLoop cfg rest (fsWrite fs p v)
      (r.1, r.2.1, Event.partSave p v :: r.2.2)

/-- Filesystem state after the overwrite handling that opens
PartitionedDataSet._save: when overwrite is set and the root exists, the
root is removed recursively. -/
def saveFs0 {α : Type} (cfg : Config) (s : BState α) : FS α :=
  if cfg.overwrite && s.fs.rootExists then
    { s.fs with files := [], rootExists := false }
  else s.fs

/-- Events of the overwrite handling of PartitionedDataSet._save. -/
def saveEvs0 {α : Type} (cfg : Config) (s : BState α) : List (Event α) :=
  if cfg.overwrite && s.fs.rootExists then [Event.fsRm] else []

/-- PartitionedDataSet._save: when overwrite is set and the root exists,
remove the root recursively first; then write every partition in sorted
id order; only after the whole loop invalidate the caches.  A failure
inside the loop propagates and the invalidation is skipped. -/
def saveB {α : Type} (cfg : Config) (data : List (Str × PartValue α))
    (s : BState α) : Except DSErr Unit × BState α × List (Event α) :=
  let r := saveLoop cfg (sortByKey data) (saveFs0 cfg s)
  match r.1 with
  | Except.ok _ =>
    (Except.ok (), { fs := r.2.1, cache := none },
      saveEvs0 cfg s ++ r.2.2 ++ [Event.fsInvalidate])
  | Except.error e =>
    (Except.error e, { fs := r.2.1, cache := s.cache }, saveEvs0 cfg s ++ r.2.2)

theorem fsInvalidate_not_mem_saveEvs0 {α : Type} (cfg : Config) (s : BState α) :
    Event.fsInvalidate ∉ saveEvs0 (α := α) cfg s := by
  unfold saveEvs0
  by_cases hrm : (cfg.overwrite && s.fs.rootExists) = true
  · rw [if_pos hrm]
    simp
  · rw [if_neg hrm]
    simp

/-- The partition writes recorded in an event list, in order. -/
def writesOf {α : Type} : List (Event α) → List (Str × α)
  | [] => []
  | Event.partSave p v :: rest => (p, v) :: writesOf rest
  | Event.find :: rest => writesOf rest
  | Event.partLoad _ :: rest => writesOf rest
  | Event.ckptSave _ :: rest => writesOf rest
  | Event.fsInvalidate :: rest => writesOf rest
  | Event.fsRm :: rest => writesOf rest

/-- Count of the filesystem find calls in an event list. -/
def countFinds {α : Type} (evs : List (Event α)) : Nat :=
  (evs.filter (fun e => match e with | Event.find => true | _ => false)).length

/-- Whether an event is a load of partition data. -/
def isPartLoad {α : Type} : Event α → Bool
  | Event.partLoad _ => true
  | _ => false

theorem saveLoop_no_invalidate {α : Type} (cfg : Config) :
    ∀ (l : List (Str × PartValue α)) (fs : FS α),
      Event.fsInvalidate ∉ (saveLoop cfg l fs).2.2
  | [], fs => by simp [saveLoop]
  | (pid, pv) :: rest, fs => by
    unfold saveLoop
    dsimp only
    by_cases h : fs.saveFails (joinProtocol cfg (partitionToPath cfg pid)) = true
    · simp [h]
    · simp only [Bool.not_eq_true] at h
      simp [h, saveLoop_no_invalidate cfg rest]

theorem saveB_ok_state {α : Type} (cfg : Config)
    (data : List (Str × PartValue α)) (s : BState α)
    (hok : (saveB cfg data s).1 = Except.ok ()) :
    (saveB cfg data s).2.1.cache = none ∧
      Event.fsInvalidate ∈ (saveB cfg data s).2.2 := by
  unfold saveB at hok ⊢
  dsimp only at hok ⊢
  cases hr : (saveLoop cfg (sortByKey data) (saveFs0 cfg s)).1 with
  | ok u => simp
  | error e =>
    rw [hr] at hok
    simp at hok

theorem saveB_err_state {α : Type} (cfg : Config)
    (data : List (Str × PartValue α)) (s : BState α) (e : DSErr)
    (herr : (saveB cfg data s).1 = Except.error e) :
    (saveB cfg data s).2.1.cache = s.cache ∧
      Event.fsInvalidate ∉ (saveB cfg data s).2.2 := by
  unfold saveB at herr ⊢
  dsimp only at herr ⊢
  cases hr : (saveLoop cfg (sortByKey data) (saveFs0 cfg s)).1 with
  | ok u =>
    rw [hr] at herr
    simp at herr
  | error e2 =>
    dsimp only
    refine ⟨rfl, ?_⟩
    have hloop := saveLoop_no_invalidate cfg (sortByKey data) (saveFs0 cfg s)
    intro hmem
    rcases List.mem_append.mp hmem with h1 | h2
    · exact fsInvalidate_not_mem_saveEvs0 cfg s h1
    · exact hloop h2

/-- C5 amended: a save that completes invalidates the listing cache
afterwards; a save whose underlying per partition write raises partway
propagates the error and leaves the cache exactly as it was, so a stale
cached listing does survive a partially failing save. -/
theorem C5_save_invalidation_amended {α : Type} (cfg : Config)
    (data : List (Str × PartValue α)) (s : BState α) :
    ((saveB cfg data s).1 = Except.ok () →
      (saveB cfg data s).2.1.cache = none ∧
      Event.fsInvalidate ∈ (saveB cfg data s).2.2) ∧
    (∀ e, (saveB cfg data s).1 = Except.error e →
      (saveB cfg data s).2.1.cache = s.cache ∧
      Event.fsInvalidate ∉ (saveB cfg data s).2.2) :=
  ⟨fun hok => saveB_ok_state cfg data s hok,
    fun e herr => saveB_err_state cfg data s e herr⟩

/-- Concrete local configuration with empty filename suffix, shared by
several witnesses. -/
def cfgPlain : Config :=
  { path := "r".data
    protocol := "file".data
    stripProtocol := fun s => s
    sep := '/'
    filenameSuffix := []
    overwrite := false }

/-- Filesystem in which the underlying dataset save raises on the
partition path r/b: the write of partition a succeeds, the write of
partition b fails. -/
def fsFailB : FS Nat :=
  { files := ["r/old".data]
    rootExists := true
    read := fun _ => 0
    saveFails := fun p => p == "r/b".data }

/-- Base state with a populated listing cache over fsFailB. -/
def sStale : BState Nat :=
  { fs := fsFailB, cache := some ["r/old".data] }

/-- Save payload for partitions a and b. -/
def dataAB : List (Str × PartValue Nat) :=
  [("a".data, PartValue.val 1), ("b".data, PartValue.val 2)]

/-- C5 counterexample: a save whose second partition write raises has
already written the first partition, yet it leaves the listing cache
populated with the stale listing, so the cache is not invalidated on
partial failure. -/
theorem C5_failing_save_counterexample :
    (saveB cfgPlain dataAB sStale).1 = Except.error DSErr.saveFailed ∧
    writesOf (saveB cfgPlain dataAB sStale).2.2 = [("r/a".data, 1)] ∧
    (saveB cfgPlain dataAB sStale).2.1.cache = some ["r/old".data] := by
  decide

/-- Base state with no files, a populated cache and no failing writes,
used for the successful save witness. -/
def sOkSave : BState Nat :=
  { fs :=
      { files := []
        rootExists := false
        read := fun _ => 0
        saveFails := fun _ => false }
    cache := some [] }

theorem C5_save_invalidation_amended_witness :
    ((saveB cfgPlain dataAB sOkSave).1 = Except.ok () ∧
      (saveB cfgPlain dataAB sOkSave).2.1.cache = none ∧
      Event.fsInvalidate ∈ (saveB cfgPlain dataAB sOkSave).2.2) ∧
    ((saveB cfgPlain dataAB sStale).1 = Except.error DSErr.saveFailed ∧
      (saveB cfgPlain dataAB sStale).2.1.cache = sStale.cache ∧
      Event.fsInvalidate ∉ (saveB cfgPlain dataAB sStale).2.2) :=
  ⟨⟨by decide,
      ((C5_save_invalidation_amended cfgPlain dataAB sOkSave).1 (by decide)).1,
      ((C5_save_invalidation_amended cfgPlain dataAB sOkSave).1 (by decide)).2⟩,
    ⟨by decide,
      ((C5_save_invalidation_amended cfgPlain dataAB sStale).2
        DSErr.saveFailed (by decide)).1,
      ((C5_save_invalidation_amended cfgPlain dataAB sStale).2
        DSErr.saveFailed (by decide)).2⟩⟩

theorem writesOf_append {α : Type} (xs ys : List (Event α)) :
    writesOf (xs ++ ys) = writesOf xs ++ writesOf ys := by
  induction xs with
  | nil => rfl
  | cons e rest ih => cases e <;> simp [writesOf, ih]

theorem writesOf_saveEvs0 {α : Type} (cfg : Config) (s : BState α) :
    writesOf (saveEvs0 (α := α) cfg s) = [] := by
  unfold saveEvs0
  by_cases hrm : (cfg.overwrite && s.fs.rootExists) = true
  · rw [if_pos hrm]
    rfl
  · rw [if_neg hrm]
    rfl

theorem saveLoop_writes {α : Type} (cfg : Config) :
    ∀ (l : List (Str × PartValue α)) (fs : FS α),
      (∀ p, fs.saveFails p = false) →
      (saveLoop cfg l fs).1 = Except.ok () ∧
      writesOf (saveLoop cfg l fs).2.2
        = l.map (fun e => (joinProtocol cfg (partitionToPath cfg e.1), resolve e.2))
  | [], fs, h => by simp [saveLoop, writesOf]
  | (pid, pv) :: rest, fs, h => by
    have hrec := saveLoop_writes cfg rest
      (fsWrite fs (joinProtocol cfg (partitionToPath cfg pid)) (resolve pv))
      (fun p => h p)
    unfold saveLoop
    dsimp only
    rw [h]
    simp only [Bool.false_eq_true, if_false]
    exact ⟨hrec.1, by simp [writesOf, hrec.2]⟩

theorem saveFs0_no_fail {α : Type} (cfg : Config) (s : BState α)
    (h : ∀ p, s.fs.saveFails p = false) :
    ∀ p, (saveFs0 cfg s).saveFails p = false := by
  intro p
  unfold saveFs0
  by_cases hrm : (cfg.overwrite && s.fs.rootExists) = true
  · rw [if_pos hrm]
    exact h p
  · rw [if_neg hrm]
    exact h p

/-- C9: the per partition writes of save happen in ascending sorted
order of the partition ids: the write sequence is exactly the save
entries sorted by id, each callable value resolved to its produced data
before its write; the sorted entries are a permutation of the input with
the ids in nondecreasing order. -/
theorem C9_save_sorted_writes {α : Type} (cfg : Config)
    (data : List (Str × PartValue α)) (s : BState α)
    (h : ∀ p, s.fs.saveFails p = false) :
    writesOf (saveB cfg data s).2.2
      = (sortByKey data).map
          (fun e => (joinProtocol cfg (partitionToPath cfg e.1), resolve e.2)) ∧
    List.Sorted (· ≤ ·) ((sortByKey data).map Prod.fst) ∧
    List.Perm (sortByKey data) data := by
  have hw := saveLoop_writes cfg (sortByKey data) (saveFs0 cfg s)
    (saveFs0_no_fail cfg s h)
  refine ⟨?_, ?_, List.perm_insertionSort keyLe data⟩
  · unfold saveB
    dsimp only
    rw [hw.1]
    dsimp only
    rw [writesOf_append, writesOf_append, writesOf_saveEvs0, hw.2]
    simp [writesOf]
  · exact List.Pairwise.map Prod.fst (fun a b hab => hab)
      (List.sorted_insertionSort keyLe data)

/-- Base state with empty root, no failing writes, shared by witnesses. -/
def sEmptyOk : BState Nat :=
  { fs :=
      { files := []
        rootExists := false
        read := fun _ => 0
        saveFails := fun _ => false }
    cache := none }

/-- The save payload of the spec example: key b before key a. -/
def dataBA : List (Str × PartValue Nat) :=
  [("b".data, PartValue.val 1), ("a".data, PartValue.thunk (fun _ => 2))]

theorem C9_save_sorted_writes_witness :
    (∀ p, sEmptyOk.fs.saveFails p = false) ∧
    (writesOf (saveB cfgPlain dataBA sEmptyOk).2.2
        = (sortByKey dataBA).map
            (fun e => (joinProtocol cfgPlain (partitionToPath cfgPlain e.1),
              resolve e.2)) ∧
      List.Sorted (· ≤ ·) ((sortByKey dataBA).map Prod.fst) ∧
      List.Perm (sortByKey dataBA) dataBA) :=
  ⟨fun _ => rfl, C9_save_sorted_writes cfgPlain dataBA sEmptyOk (fun _ => rfl)⟩

/-- The two cache consulting query operations named by the cache claim. -/
inductive QOp where
  | qexists
  | qload

/-- State after one query operation. -/
def qState {α : Type} (cfg : Config) (o : QOp) (s : BState α) : BState α :=
  match o with
  | QOp.qexists => (existsB cfg s).2.1
  | QOp.qload => (loadB cfg s).2.1

/-- Events of one query operation. -/
def qEvents {α : Type} (cfg : Config) (o : QOp) (s : BState α) :
    List (Event α) :=
  match o with
  | QOp.qexists => (existsB cfg s).2.2
  | QOp.qload => (loadB cfg s).2.2

theorem listPartsB_none {α : Type} (cfg : Config) (s : BState α)
    (h : s.cache = none) :
    listPartsB cfg s
      = (listPartsRawB cfg s.fs, { s with cache := some (listPartsRawB cfg s.fs) },
        [Event.find]) := by
  unfold listPartsB
  rw [h]

theorem listPartsB_some {α : Type} (cfg : Config) (s : BState α) (l : List Str)
    (h : s.cache = some l) :
    listPartsB cfg s = (l, s, []) := by
  unfold listPartsB
  rw [h]

theorem qState_eq {α : Type} (cfg : Config) (o : QOp) (s : BState α) :
    qState cfg o s = (listPartsB cfg s).2.1 := by
  cases o with
  | qexists => rfl
  | qload =>
    unfold qState loadB
    dsimp only
    split <;> rfl

theorem qEvents_eq {α : Type} (cfg : Config) (o : QOp) (s : BState α) :
    qEvents cfg o s = (listPartsB cfg s).2.2 := by
  cases o with
  | qexists => rfl
  | qload =>
    unfold qEvents loadB
    dsimp only
    split <;> rfl

/-- C7 counterexample: a save that fails partway between two queries
does not force a fresh find on the next call: the error propagates, the
next load performs zero filesystem finds and is served the stale cached
listing, which no longer matches what a fresh find would return. -/
theorem C7_failing_save_no_fresh_find_counterexample :
    (saveB cfgPlain dataAB sStale).1 = Except.error DSErr.saveFailed ∧
    countFinds (qEvents cfgPlain QOp.qload (saveB cfgPlain dataAB sStale).2.1) = 0 ∧
    (listPartsB cfgPlain (saveB cfgPlain dataAB sStale).2.1).1 = ["r/old".data] ∧
    listPartsRawB cfgPlain (saveB cfgPlain dataAB sStale).2.1.fs
      ≠ ["r/old".data] := by
  decide

/-- C7 amended: starting from an empty listing cache, two consecutive
exists or load calls trigger exactly one filesystem find, the second
call leaves the state unchanged (it is served from the cache) and the
cache holds the one listing computed from the filesystem; a release, or
a save that completes, clears the cache so that the next exists or load
call triggers a fresh find; but a save that fails partway leaves the
cache as it was, so with a populated cache the next call performs no
find at all. -/
theorem C7_cache_find_amended {α : Type} (cfg : Config) (s : BState α)
    (hs : s.cache = none) :
    (∀ o1 o2 : QOp,
      countFinds (qEvents cfg o1 s ++ qEvents cfg o2 (qState cfg o1 s)) = 1 ∧
      qState cfg o2 (qState cfg o1 s) = qState cfg o1 s ∧
      (qState cfg o1 s).cache = some (listPartsRawB cfg s.fs)) ∧
    (∀ (t : BState α) (o : QOp), countFinds (qEvents cfg o (releaseB t).1) = 1) ∧
    (∀ (t : BState α) (data : List (Str × PartValue α)) (o : QOp),
      (saveB cfg data t).1 = Except.ok () →
      countFinds (qEvents cfg o (saveB cfg data t).2.1) = 1) ∧
    (∀ (t : BState α) (l : List Str) (data : List (Str × PartValue α))
      (e : DSErr) (o : QOp),
      t.cache = some l →
      (saveB cfg data t).1 = Except.error e →
      countFinds (qEvents cfg o (saveB cfg data t).2.1) = 0 ∧
      (saveB cfg data t).2.1.cache = some l) := by
  have hq1 : ∀ o : QOp,
      qState cfg o s = { s with cache := some (listPartsRawB cfg s.fs) } := by
    intro o
    rw [qState_eq, listPartsB_none cfg s hs]
  have hgen : ∀ t : BState α, t.cache = none →
      ∀ o : QOp, qEvents cfg o t = [Event.find] := by
    intro t ht o
    rw [qEvents_eq, listPartsB_none cfg t ht]
  refine ⟨fun o1 o2 => ?_, fun t o => ?_, fun t data o hok => ?_,
    fun t l data e o hl herr => ?_⟩
  · have hcache1 : (qState cfg o1 s).cache = some (listPartsRawB cfg s.fs) := by
      rw [hq1 o1]
    have h2e : qEvents cfg o2 (qState cfg o1 s) = [] := by
      rw [qEvents_eq, listPartsB_some cfg _ _ hcache1]
    have h2s : qState cfg o2 (qState cfg o1 s) = qState cfg o1 s := by
      rw [qState_eq, listPartsB_some cfg _ _ hcache1]
    refine ⟨?_, h2s, hcache1⟩
    rw [hgen s hs o1, h2e]
    rfl
  · rw [hgen (releaseB t).1 rfl o]
    rfl
  · have hc := (saveB_ok_state cfg data t hok).1
    rw [hgen _ hc o]
    rfl
  · have hc : (saveB cfg data t).2.1.cache = some l := by
      rw [(saveB_err_state cfg data t e herr).1, hl]
    refine ⟨?_, hc⟩
    rw [qEvents_eq, listPartsB_some cfg _ _ hc]
    rfl

/-- Fresh base state over a one file filesystem, for the cache witness. -/
def sFresh : BState Nat :=
  { fs :=
      { files := ["r/a".data]
        rootExists := true
        read := fun _ => 0
        saveFails := fun _ => false }
    cache := none }

theorem C7_cache_find_amended_witness :
    sFresh.cache = none ∧
    (countFinds (qEvents cfgPlain QOp.qexists sFresh
        ++ qEvents cfgPlain QOp.qload (qState cfgPlain QOp.qexists sFresh)) = 1 ∧
      qState cfgPlain QOp.qload (qState cfgPlain QOp.qexists sFresh)
        = qState cfgPlain QOp.qexists sFresh ∧
      (qState cfgPlain QOp.qexists sFresh).cache
        = some (listPartsRawB cfgPlain sFresh.fs)) ∧
    countFinds (qEvents cfgPlain QOp.qload (releaseB sFresh).1) = 1 ∧
    countFinds (qEvents cfgPlain QOp.qload (saveB cfgPlain dataAB sOkSave).2.1) = 1 ∧
    (countFinds (qEvents cfgPlain QOp.qexists (saveB cfgPlain dataAB sStale).2.1) = 0 ∧
      (saveB cfgPlain dataAB sStale).2.1.cache = some ["r/old".data]) :=
  ⟨rfl,
    (C7_cache_find_amended cfgPlain sFresh rfl).1 QOp.qexists QOp.qload,
    (C7_cache_find_amended cfgPlain sFresh rfl).2.1 sFresh QOp.qload,
    (C7_cache_find_amended cfgPlain sFresh rfl).2.2.1 sOkSave dataAB QOp.qload
      (by decide),
    (C7_cache_find_amended cfgPlain sFresh rfl).2.2.2 sStale (["r/old".data])
      dataAB DSErr.saveFailed QOp.qexists rfl (by decide)⟩

/-- Static configuration of an IncrementalDataSet instance: the base
configuration (IncrementalDataSet passes no overwrite flag to the base
initializer, so overwrite stays false), the storage path recorded under
the filepath argument of the parsed checkpoint configuration, the
optional force_checkpoint value popped from it, and the comparison
function (operator.gt unless overridden). -/
structure IConfig extends Config where
  ckptFilepath : Str
  forceCkpt : Option Str
  cmp : Str → Str → Bool

/-- The default comparison_func operator.gt on partition id strings. -/
def defaultComparison (a b : Str) : Bool :=
  decide (b < a)

/-- The DEFAULT_CHECKPOINT_FILENAME class constant. -/
def DEFAULT_CHECKPOINT_FILENAME : Str := "CHECKPOINT".data

/-- The default checkpoint filepath built by _parse_checkpoint_config:
the rstripped normalized root joined with the checkpoint filename. -/
def defaultCkptPath (cfg : Config) : Str :=
  rstrip (normalizedPath cfg) cfg.sep ++ [cfg.sep] ++ DEFAULT_CHECKPOINT_FILENAME

/-- IncrementalDataSet construction with a string checkpoint argument:
_parse_checkpoint_config turns the string into a force_checkpoint entry
merged over the default checkpoint configuration, so the checkpoint
filepath stays at its default, the string is popped into
force_checkpoint, and the comparison function stays operator.gt. -/
def mkForcedConfig (base : Config) (v : Str) : IConfig :=
  { toConfig := { base with overwrite := false }
    ckptFilepath := defaultCkptPath base
    forceCkpt := some v
    cmp := defaultComparison }

/-- Outcome of loading the checkpoint dataset.  Modelled from the spec:
kedro.io.core.AbstractDataSet (not under src/) wraps every exception of
an underlying load into DataSetError, so the checkpoint load either
returns the stored string or raises DataSetError; failing covers both a
missing checkpoint file and any storage error. -/
inductive CkptLoad where
  | failing : CkptLoad
  | value : Str → CkptLoad
  deriving DecidableEq

/-- Mutable state of an IncrementalDataSet instance: the filesystem, the
listing cache, and what the checkpoint dataset load returns. -/
structure IState (α : Type) where
  fs : FS α
  cache : Option (List Str)
  ckpt : CkptLoad

/-- IncrementalDataSet._read_checkpoint: the forced value when present,
otherwise the stored value, a DataSetError of the load swallowed into
absence. -/
def readCheckpoint {α : Type} (cfg : IConfig) (s : IState α) : Option Str :=
  match cfg.forceCkpt with
  | some f => some f
  | none =>
    match s.ckpt with
    | CkptLoad.value v => some v
    | CkptLoad.failing => none

/-- The protocol stripped storage path of the checkpoint dataset as
computed inside IncrementalDataSet._list_partitions. -/
def ckptPath (cfg : IConfig) : Str :=
  cfg.stripProtocol cfg.ckptFilepath

/-- The _is_valid_partition predicate of
IncrementalDataSet._list_partitions: suffix match, not the checkpoint
path, and past the checkpoint value when one exists. -/
def isValidPartition {α : Type} (cfg : IConfig) (s : IState α) (p : Str) : Bool :=
  if strEndsWith p cfg.filenameSuffix = false then false
  else if p = ckptPath cfg then false
  else
    match readCheckpoint cfg s with
    | none => true
    | some c => cfg.cmp (pathToPartition cfg.toConfig p) c

/-- IncrementalDataSet._list_partitions without the cache decorator: the
valid find results in sorted order. -/
def listPartsRawI {α : Type} (cfg : IConfig) (s : IState α) : List Str :=
  (s.fs.files.filter (fun p => isValidPartition cfg s p)).insertionSort (· ≤ ·)

/-- IncrementalDataSet._list_partitions under the shared cachedmethod
cache. -/
def listPartsI {α : Type} (cfg : IConfig) (s : IState α) :
    List Str × IState α × List (Event α) :=
  match s.cache with
  | some l => (l, s, [])
  | none =>
    (listPartsRawI cfg s, { s with cache := some (listPartsRawI cfg s) },
      [Event.find])

/-- IncrementalDataSet._load: eagerly load every listed partition
through a dataset bound to its protocol joined path; an empty listing
yields an empty mapping, no error is raised. -/
def loadI {α : Type} (cfg : IConfig) (s : IState α) :
    List (Str × α) × IState α × List (Event α) :=
  let r := listPartsI cfg s
  (r.1.map (fun p => (pathToPartition cfg.toConfig p,
      s.fs.read (joinProtocol cfg.toConfig p))),
    r.2.1, r.2.2 ++ r.1.map (fun p => Event.partLoad p))

/-- IncrementalDataSet.confirm: map the listed partitions to ids and,
when the list is nonempty, save its last id to the checkpoint dataset. -/
def confirmI {α : Type} (cfg : IConfig) (s : IState α) :
    IState α × List (Event α) :=
  let r := listPartsI cfg s
  let ids := r.1.map (pathToPartition cfg.toConfig)
  match ids.getLast? with
  | none => (r.2.1, r.2.2)
  | some v =>
    ({ r.2.1 with ckpt := CkptLoad.value v }, r.2.2 ++ [Event.ckptSave v])

/-- Iterated confirm calls. -/
def confirmN {α : Type} (cfg : IConfig) : Nat → IState α → IState α
  | 0, s => s
  | n + 1, s => confirmN cfg n (confirmI cfg s).1

theorem listPartsI_none {α : Type} (cfg : IConfig) (s : IState α)
    (h : s.cache = none) :
    listPartsI cfg s
      = (listPartsRawI cfg s, { s with cache := some (listPartsRawI cfg s) },
        [Event.find]) := by
  unfold listPartsI
  rw [h]

theorem listPartsI_some {α : Type} (cfg : IConfig) (s : IState α) (l : List Str)
    (h : s.cache = some l) :
    listPartsI cfg s = (l, s, []) := by
  unfold listPartsI
  rw [h]

theorem listPartsI_fs {α : Type} (cfg : IConfig) (s : IState α) :
    (listPartsI cfg s).2.1.fs = s.fs := by
  unfold listPartsI
  cases s.cache <;> rfl

theorem listPartsI_ckpt {α : Type} (cfg : IConfig) (s : IState α) :
    (listPartsI cfg s).2.1.ckpt = s.ckpt := by
  unfold listPartsI
  cases s.cache <;> rfl

theorem listPartsI_cache {α : Type} (cfg : IConfig) (s : IState α) :
    (listPartsI cfg s).2.1.cache = some (listPartsI cfg s).1 := by
  unfold listPartsI
  cases hc : s.cache with
  | none => rfl
  | some l => exact hc

theorem listPartsI_evs {α : Type} (cfg : IConfig) (s : IState α) :
    (listPartsI (α := α) cfg s).2.2 = []
      ∨ (listPartsI (α := α) cfg s).2.2 = [Event.find] := by
  unfold listPartsI
  cases s.cache with
  | none => right; rfl
  | some l => left; rfl

theorem listPartsI_no_partLoad {α : Type} (cfg : IConfig) (s : IState α) :
    ∀ e ∈ (listPartsI (α := α) cfg s).2.2, isPartLoad e = false := by
  intro e he
  rcases listPartsI_evs cfg s with h | h <;> rw [h] at he
  · exact absurd he (List.not_mem_nil e)
  · have he2 : e = Event.find := by simpa using he
    rw [he2]
    rfl

theorem confirmI_fs {α : Type} (cfg : IConfig) (s : IState α) :
    (confirmI cfg s).1.fs = s.fs := by
  unfold confirmI
  dsimp only
  cases hg : ((listPartsI cfg s).1.map (pathToPartition cfg.toConfig)).getLast? with
  | none => exact listPartsI_fs cfg s
  | some v => exact listPartsI_fs cfg s

theorem confirmI_cache {α : Type} (cfg : IConfig) (s : IState α) :
    (confirmI cfg s).1.cache = some (listPartsI cfg s).1 := by
  unfold confirmI
  dsimp only
  cases hg : ((listPartsI cfg s).1.map (pathToPartition cfg.toConfig)).getLast? with
  | none => exact listPartsI_cache cfg s
  | some v => exact listPartsI_cache cfg s

theorem confirmI_ckpt_eq {α : Type} (cfg : IConfig) (s : IState α) :
    (confirmI cfg s).1.ckpt
      = (match ((listPartsI cfg s).1.map (pathToPartition cfg.toConfig)).getLast? with
          | none => s.ckpt
          | some v => CkptLoad.value v) := by
  unfold confirmI
  dsimp only
  cases hg : ((listPartsI cfg s).1.map (pathToPartition cfg.toConfig)).getLast? with
  | none => exact listPartsI_ckpt cfg s
  | some v => rfl

theorem confirmI_no_partLoad {α : Type} (cfg : IConfig) (s : IState α) :
    ∀ e ∈ (confirmI (α := α) cfg s).2, isPartLoad e = false := by
  intro e he
  unfold confirmI at he
  dsimp only at he
  cases hg : ((listPartsI cfg s).1.map (pathToPartition cfg.toConfig)).getLast? with
  | none =>
    rw [hg] at he
    exact listPartsI_no_partLoad cfg s e he
  | some v =>
    rw [hg] at he
    rcases List.mem_append.mp he with h1 | h2
    · exact listPartsI_no_partLoad cfg s e h1
    · have he2 : e = Event.ckptSave v := by simpa using h2
      rw [he2]
      rfl

/-- C2 amended: confirm persists the id of the last element of the
sorted visible listing as read in the current state (not in general the
comparator maximum of the visible ids); an empty visible listing leaves
the stored checkpoint unchanged; confirm records no partition data load;
and a second confirm with no partitions added in between stores the same
checkpoint value as the first. -/
theorem C2_confirm_amended {α : Type} (cfg : IConfig) (s : IState α) :
    (confirmI cfg s).1.ckpt
      = (match ((listPartsI cfg s).1.map (pathToPartition cfg.toConfig)).getLast? with
          | none => s.ckpt
          | some v => CkptLoad.value v) ∧
    (∀ e ∈ (confirmI (α := α) cfg s).2, isPartLoad e = false) ∧
    (confirmI cfg (confirmI cfg s).1).1.ckpt = (confirmI cfg s).1.ckpt := by
  refine ⟨confirmI_ckpt_eq cfg s, confirmI_no_partLoad cfg s, ?_⟩
  have hc1 : (confirmI cfg s).1.cache = some (listPartsI cfg s).1 :=
    confirmI_cache cfg s
  have hl1 : listPartsI cfg (confirmI cfg s).1
      = ((listPartsI cfg s).1, (confirmI cfg s).1, []) :=
    listPartsI_some cfg _ _ hc1
  have h2 := confirmI_ckpt_eq cfg (confirmI cfg s).1
  rw [hl1] at h2
  dsimp only at h2
  have h1 := confirmI_ckpt_eq cfg s
  cases hg : ((listPartsI cfg s).1.map (pathToPartition cfg.toConfig)).getLast? with
  | none =>
    rw [hg] at h2
    exact h2
  | some v =>
    rw [hg] at h2 h1
    rw [h2, h1]

theorem mem_listPartsRawI {α : Type} (cfg : IConfig) (s : IState α) (p : Str) :
    p ∈ listPartsRawI (α := α) cfg s
      ↔ p ∈ s.fs.files ∧ isValidPartition cfg s p = true := by
  unfold listPartsRawI
  rw [List.mem_insertionSort, List.mem_filter]

theorem isValidPartition_iff {α : Type} (cfg : IConfig) (s : IState α) (p : Str) :
    isValidPartition (α := α) cfg s p = true ↔
      (strEndsWith p cfg.filenameSuffix = true ∧ p ≠ ckptPath cfg ∧
        (match readCheckpoint cfg s with
         | none => True
         | some c => cfg.cmp (pathToPartition cfg.toConfig p) c = true)) := by
  unfold isValidPartition
  cases hcv : readCheckpoint cfg s with
  | none => split_ifs with h1 h2 <;> simp_all
  | some c => split_ifs with h1 h2 <;> simp_all

/-- C1: the incremental listing is sorted, never contains the checkpoint
storage path, and contains a path iff the filesystem listed it, it ends
with the filename suffix, it differs from the checkpoint path and, when
a checkpoint value exists, its partition id satisfies the comparison
predicate; when no checkpoint value exists every suffix matching path
other than the checkpoint path is visible. -/
theorem C1_incremental_listing {α : Type} (cfg : IConfig) (s : IState α) :
    List.Sorted (· ≤ ·) (listPartsRawI (α := α) cfg s) ∧
    ckptPath cfg ∉ listPartsRawI (α := α) cfg s ∧
    (∀ p, p ∈ listPartsRawI (α := α) cfg s ↔
      (p ∈ s.fs.files ∧ strEndsWith p cfg.filenameSuffix = true ∧
        p ≠ ckptPath cfg ∧
        (match readCheckpoint cfg s with
         | none => True
         | some c => cfg.cmp (pathToPartition cfg.toConfig p) c = true))) := by
  have hmem : ∀ p, p ∈ listPartsRawI (α := α) cfg s ↔
      (p ∈ s.fs.files ∧ strEndsWith p cfg.filenameSuffix = true ∧
        p ≠ ckptPath cfg ∧
        (match readCheckpoint cfg s with
         | none => True
         | some c => cfg.cmp (pathToPartition cfg.toConfig p) c = true)) := by
    intro p
    rw [mem_listPartsRawI, isValidPartition_iff]
  refine ⟨?_, ?_, hmem⟩
  · unfold listPartsRawI
    exact List.sorted_insertionSort _ _
  · intro hmem2
    exact ((hmem _).mp hmem2).2.2.1 rfl

/-- C8: when no forced checkpoint is configured and the checkpoint
dataset load fails, the engine reads the checkpoint as absent and the
listing contains every suffix matching path other than the checkpoint
path; no error propagates, the read is total. -/
theorem C8_checkpoint_failure_absent {α : Type} (cfg : IConfig) (s : IState α)
    (hf : cfg.forceCkpt = none) (he : s.ckpt = CkptLoad.failing) :
    readCheckpoint cfg s = none ∧
    (∀ p, p ∈ listPartsRawI (α := α) cfg s ↔
      (p ∈ s.fs.files ∧ strEndsWith p cfg.filenameSuffix = true ∧
        p ≠ ckptPath cfg)) := by
  have hr : readCheckpoint (α := α) cfg s = none := by
    unfold readCheckpoint
    rw [hf, he]
  refine ⟨hr, fun p => ?_⟩
  rw [mem_listPartsRawI, isValidPartition_iff, hr]
  tauto

/-- A listing cache that is either empty or holds the current raw
listing; every state reachable through the engine operations satisfies
this. -/
def CacheOk {α : Type} (cfg : IConfig) (s : IState α) : Prop :=
  s.cache = none ∨ s.cache = some (listPartsRawI cfg s)

theorem readCheckpoint_forced {α : Type} (cfg : IConfig) (s : IState α)
    (f : Str) (hf : cfg.forceCkpt = some f) :
    readCheckpoint (α := α) cfg s = some f := by
  unfold readCheckpoint
  rw [hf]

theorem isValid_forced {α : Type} (cfg : IConfig) (f : Str)
    (hf : cfg.forceCkpt = some f) (s t : IState α) (p : Str) :
    isValidPartition cfg s p = isValidPartition cfg t p := by
  unfold isValidPartition
  rw [readCheckpoint_forced cfg s f hf, readCheckpoint_forced cfg t f hf]

theorem listPartsRawI_forced {α : Type} (cfg : IConfig) (f : Str)
    (hf : cfg.forceCkpt = some f) (s t : IState α) (hfs : s.fs = t.fs) :
    listPartsRawI cfg s = listPartsRawI cfg t := by
  unfold listPartsRawI
  rw [hfs]
  have hfun : (fun p => isValidPartition cfg s p)
      = (fun p => isValidPartition cfg t p) :=
    funext (fun p => isValid_forced cfg f hf s t p)
  rw [hfun]

theorem confirmN_fs {α : Type} (cfg : IConfig) :
    ∀ (n : Nat) (s : IState α), (confirmN cfg n s).fs = s.fs
  | 0, s => rfl
  | n + 1, s => by
    show (confirmN cfg n (confirmI cfg s).1).fs = s.fs
    rw [confirmN_fs cfg n (confirmI cfg s).1, confirmI_fs cfg s]

theorem listPartsI_confirm {α : Type} (cfg : IConfig) (s : IState α) :
    (listPartsI cfg (confirmI cfg s).1).1 = (listPartsI cfg s).1 := by
  rw [listPartsI_some cfg _ _ (confirmI_cache cfg s)]

theorem listPartsI_confirmN {α : Type} (cfg : IConfig) :
    ∀ (n : Nat) (s : IState α),
      (listPartsI cfg (confirmN cfg n s)).1 = (listPartsI cfg s).1
  | 0, s => rfl
  | n + 1, s => by
    show (listPartsI cfg (confirmN cfg n (confirmI cfg s).1)).1 = _
    rw [listPartsI_confirmN cfg n (confirmI cfg s).1, listPartsI_confirm cfg s]

theorem listPartsI_fst_cacheOk {α : Type} (cfg : IConfig) (s : IState α)
    (h : CacheOk cfg s) :
    (listPartsI cfg s).1 = listPartsRawI cfg s := by
  cases h with
  | inl h => rw [listPartsI_none cfg s h]
  | inr h => rw [listPartsI_some cfg s _ h]

theorem confirmI_ckptSave_mem {α : Type} (cfg : IConfig) (s : IState α)
    (v : Str) (hv : Event.ckptSave v ∈ (confirmI (α := α) cfg s).2) :
    ∃ p ∈ (listPartsI cfg s).1, v = pathToPartition cfg.toConfig p := by
  unfold confirmI at hv
  dsimp only at hv
  cases hg : ((listPartsI cfg s).1.map (pathToPartition cfg.toConfig)).getLast? with
  | none =>
    rw [hg] at hv
    rcases listPartsI_evs cfg s with h | h <;> rw [h] at hv
    · exact absurd hv (List.not_mem_nil _)
    · simp at hv
  | some w =>
    rw [hg] at hv
    rcases List.mem_append.mp hv with h1 | h2
    · rcases listPartsI_evs cfg s with h | h <;> rw [h] at h1
      · exact absurd h1 (List.not_mem_nil _)
      · simp at h1
    · have hvw : (Event.ckptSave v : Event α) = Event.ckptSave w := by
        simpa using h2
      have hvw2 : v = w := by injection hvw
      have hwopt : w ∈ ((listPartsI cfg s).1.map (pathToPartition cfg.toConfig)).getLast? := by
        rw [hg]
        rfl
      obtain ⟨hne, hwl⟩ := List.mem_getLast?_eq_getLast hwopt
      have hwmem : w ∈ (listPartsI cfg s).1.map (pathToPartition cfg.toConfig) := by
        rw [hwl]
        exact List.getLast_mem hne
      obtain ⟨p, hp, hpw⟩ := List.mem_map.mp hwmem
      exact ⟨p, hp, by rw [hvw2, ← hpw]⟩

/-- C3: with a forced checkpoint value, the checkpoint read is the
forced value whatever the checkpoint store holds, any number of confirm
calls leaves both the raw and the served visible listings unchanged,
and with the default comparison function a value persisted by confirm is
never the forced value itself. -/
theorem C3_forced_checkpoint {α : Type} (cfg : IConfig) (f : Str)
    (s : IState α) (n : Nat)
    (hf : cfg.forceCkpt = some f) (hcmp : cfg.cmp = defaultComparison)
    (hca : CacheOk cfg s) :
    readCheckpoint cfg s = some f ∧
    listPartsRawI cfg (confirmN cfg n s) = listPartsRawI cfg s ∧
    (listPartsI cfg (confirmN cfg n s)).1 = (listPartsI cfg s).1 ∧
    (∀ v, Event.ckptSave v ∈ (confirmI (α := α) cfg s).2 → v ≠ f) := by
  refine ⟨readCheckpoint_forced cfg s f hf,
    listPartsRawI_forced cfg f hf _ _ (confirmN_fs cfg n s),
    listPartsI_confirmN cfg n s, ?_⟩
  intro v hv hvf
  obtain ⟨p, hp, hpv⟩ := confirmI_ckptSave_mem cfg s v hv
  rw [listPartsI_fst_cacheOk cfg s hca] at hp
  have hval : isValidPartition cfg s p = true :=
    ((mem_listPartsRawI cfg s p).mp hp).2
  have hiff := (isValidPartition_iff cfg s p).mp hval
  rw [readCheckpoint_forced cfg s f hf] at hiff
  have hcmpf : cfg.cmp (pathToPartition cfg.toConfig p) f = true := hiff.2.2
  rw [hcmp] at hcmpf
  have hlt : f < pathToPartition cfg.toConfig p := of_decide_eq_true hcmpf
  rw [hpv] at hvf
  exact ne_of_gt hlt hvf

/-- Shared concrete incremental configuration: local root r, suffix .x,
no forced checkpoint, default comparison. -/
def icfgX : IConfig :=
  { path := "r".data
    protocol := "file".data
    stripProtocol := fun s => s
    sep := '/'
    filenameSuffix := ".x".data
    overwrite := false
    ckptFilepath := "r/CHECKPOINT".data
    forceCkpt := none
    cmp := defaultComparison }

/-- Incremental state with partitions a.x and a-.x, empty cache and a
failing checkpoint load. -/
def sAX : IState Nat :=
  { fs :=
      { files := ["r/a.x".data, "r/a-.x".data]
        rootExists := true
        read := fun _ => 0
        saveFails := fun _ => false }
    cache := none
    ckpt := CkptLoad.failing }

/-- C2 counterexample: with suffix .x and visible ids a and a-, the
sorted path order puts r/a.x last although id a- is strictly greater
than id a under the default comparison, so confirm persists a, which is
not the maximum visible partition id under the comparator. -/
theorem C2_confirm_not_max_counterexample :
    (confirmI icfgX sAX).1.ckpt = CkptLoad.value ("a".data) ∧
    ("a-".data) ∈ ((listPartsI icfgX sAX).1.map (pathToPartition icfgX.toConfig)) ∧
    icfgX.cmp ("a-".data) ("a".data) = true ∧
    ("a-".data ≠ "a".data) := by
  decide

theorem C8_checkpoint_failure_absent_witness :
    (icfgX.forceCkpt = none ∧ sAX.ckpt = CkptLoad.failing) ∧
    (readCheckpoint icfgX sAX = none ∧
      (∀ p, p ∈ listPartsRawI (α := Nat) icfgX sAX ↔
        (p ∈ sAX.fs.files ∧ strEndsWith p icfgX.filenameSuffix = true ∧
          p ≠ ckptPath icfgX))) :=
  ⟨⟨rfl, rfl⟩, C8_checkpoint_failure_absent icfgX sAX rfl rfl⟩

/-- Incremental state over an empty root. -/
def sNoParts : IState Nat :=
  { fs :=
      { files := []
        rootExists := false
        read := fun _ => 0
        saveFails := fun _ => false }
    cache := none
    ckpt := CkptLoad.failing }

/-- C6 counterexample: on a root with zero matching partitions the
incremental load returns the empty mapping instead of raising; the
embedding of IncrementalDataSet._load is total, no exception path
exists in that method. -/
theorem C6_incremental_empty_counterexample :
    (listPartsI icfgX sNoParts).1 = [] ∧ (loadI icfgX sNoParts).1 = [] := by
  decide

/-- C6 amended: with zero matching partitions the base engine load
raises DataSetError and exists returns false without raising, while the
incremental engine load returns an empty mapping instead of raising. -/
theorem C6_empty_load_amended {α : Type} (cfg : Config) (icfg : IConfig)
    (s : BState α) (t : IState α)
    (hs : s.cache = none) (hraw : listPartsRawB cfg s.fs = [])
    (ht : t.cache = none) (htraw : listPartsRawI icfg t = []) :
    (loadB cfg s).1 = Except.error DSErr.noPartitionsFound ∧
    (existsB cfg s).1 = false ∧
    (loadI icfg t).1 = [] := by
  have hlb := listPartsB_none cfg s hs
  have hli := listPartsI_none icfg t ht
  refine ⟨?_, ?_, ?_⟩
  · unfold loadB
    dsimp only
    rw [hlb]
    dsimp only
    rw [hraw]
    rfl
  · unfold existsB
    dsimp only
    rw [hlb]
    dsimp only
    rw [hraw]
    rfl
  · unfold loadI
    dsimp only
    rw [hli]
    dsimp only
    rw [htraw]
    rfl

theorem C6_empty_load_amended_witness :
    (sEmptyOk.cache = none ∧ listPartsRawB cfgPlain sEmptyOk.fs = [] ∧
      sNoParts.cache = none ∧ listPartsRawI icfgX sNoParts = []) ∧
    ((loadB cfgPlain sEmptyOk).1 = Except.error DSErr.noPartitionsFound ∧
      (existsB cfgPlain sEmptyOk).1 = false ∧
      (loadI icfgX sNoParts).1 = []) :=
  ⟨⟨rfl, rfl, rfl, rfl⟩,
    C6_empty_load_amended cfgPlain icfgX sEmptyOk sNoParts rfl rfl rfl rfl⟩

/-- C10: confirm leaves the populated listing cache unchanged, and a
subsequent list or load with no intervening save or release is served
the same partitions as before the confirm, although the stored
checkpoint may have advanced. -/
theorem C10_confirm_frame {α : Type} (cfg : IConfig) (s : IState α)
    (l : List Str) (hc : s.cache = some l) :
    (confirmI cfg s).1.cache = some l ∧
    (listPartsI cfg (confirmI cfg s).1).1 = (listPartsI cfg s).1 ∧
    (loadI cfg (confirmI cfg s).1).1 = (loadI cfg s).1 := by
  have hls : listPartsI cfg s = (l, s, []) := listPartsI_some cfg s l hc
  have h1l : (confirmI cfg s).1.cache = some l := by
    rw [confirmI_cache cfg s, hls]
  have h2 : listPartsI cfg (confirmI cfg s).1 = (l, (confirmI cfg s).1, []) :=
    listPartsI_some cfg _ l h1l
  refine ⟨h1l, ?_, ?_⟩
  · rw [h2, hls]
  · unfold loadI
    dsimp only
    rw [h2, hls, confirmI_fs cfg s]

/-- Incremental state with a populated listing cache. -/
def sCachedAX : IState Nat :=
  { fs :=
      { files := ["r/a.x".data, "r/a-.x".data]
        rootExists := true
        read := fun _ => 0
        saveFails := fun _ => false }
    cache := some ["r/a.x".data]
    ckpt := CkptLoad.failing }

theorem C10_confirm_frame_witness :
    sCachedAX.cache = some ["r/a.x".data] ∧
    ((confirmI icfgX sCachedAX).1.cache = some ["r/a.x".data] ∧
      (listPartsI icfgX (confirmI icfgX sCachedAX).1).1
        = (listPartsI icfgX sCachedAX).1 ∧
      (loadI icfgX (confirmI icfgX sCachedAX).1).1 = (loadI icfgX sCachedAX).1) :=
  ⟨rfl, C10_confirm_frame icfgX sCachedAX (["r/a.x".data]) rfl⟩

/-- Concrete forced checkpoint configuration built the way a string
checkpoint argument is parsed. -/
def icfgForced : IConfig :=
  mkForcedConfig cfgPlain ("2023-01-03".data)

/-- Incremental state whose checkpoint store holds a value that the
forced configuration must ignore. -/
def sForced : IState Nat :=
  { fs :=
      { files := ["r/2023-01-02".data, "r/2023-01-04".data]
        rootExists := true
        read := fun _ => 0
        saveFails := fun _ => false }
    cache := none
    ckpt := CkptLoad.value ("zzz".data) }

theorem C3_forced_checkpoint_witness :
    (icfgForced.forceCkpt = some ("2023-01-03".data) ∧
      icfgForced.cmp = defaultComparison ∧ CacheOk icfgForced sForced) ∧
    (readCheckpoint icfgForced sForced = some ("2023-01-03".data) ∧
      listPartsRawI icfgForced (confirmN icfgForced 2 sForced)
        = listPartsRawI icfgForced sForced ∧
      (listPartsI icfgForced (confirmN icfgForced 2 sForced)).1
        = (listPartsI icfgForced sForced).1 ∧
      (∀ v, Event.ckptSave v ∈ (confirmI (α := Nat) icfgForced sForced).2 →
        v ≠ "2023-01-03".data)) :=
  ⟨⟨rfl, rfl, Or.inl rfl⟩,
    C3_forced_checkpoint icfgForced ("2023-01-03".data) sForced 2
      rfl rfl (Or.inl rfl)⟩

end Kedro
